import Mathlib

/-!
# service-store: Environment / Build lifecycle over a relational store

A shallow embedding of `service_handler.go` (`ServiceView.Find`, `MapInput`,
`HasID`, `LoadFromInput`, `Update`, `Save`).

Modelling conventions

* The relational store is a value `DB`: the rows of the `environments` and
  `builds` tables and the two primary-key sequences.  Every store call of the
  source is a function on `DB`; a call that can return an error takes the error
  the store answers with (`none` when the call succeeds).
* Go `string`, `uint`, `time.Time` are `String`, `Nat`, `Nat`; a Go map that may
  be `nil` is an `Option`; a Go slice is a `List` (`nil` is `[]`).
* A Go `error` result is an `Option String` (`none` is `nil`).
* `log.Println` has no effect on the store or on any result and is left out.
-/

namespace ServiceStore

/-! ## Data model -/

/-- Modelled from the spec: `models.Map` (package `models` is not part of the
sources), an ordered key to value mapping that is opaque to the handler.  Keys
and values are kept as strings. -/
abbrev Map := List (String × String)

/-- Modelled from the spec: `models.Environment` (package `models` is not part of
the sources), with the fields the handler reads and writes: `ID`, `Name`,
`DatacenterID`, `Type`, `Status`, `Options`, `Credentials`. -/
structure Environment where
  ID : Nat
  Name : String
  DatacenterID : Nat
  Typ : String
  Status : String
  Options : Option Map
  Credentials : Option Map
deriving DecidableEq, Repr

/-- Modelled from the spec: `models.Build` (package `models` is not part of the
sources), with the fields the handler reads and writes. `CreatedAt` is filled by
the store when the row is inserted. -/
structure Build where
  ID : Nat
  UUID : String
  EnvironmentID : Nat
  UserID : Nat
  Typ : String
  Status : String
  Definition : String
  Mapping : Option Map
  CreatedAt : Nat
deriving DecidableEq, Repr

/-- The struct `ServiceView` of `service_handler.go`. -/
structure ServiceView where
  ID : Nat
  IDs : List String
  Names : List String
  UUID : String
  UserID : Nat
  DatacenterID : Nat
  Name : String
  Typ : String
  Version : Nat
  Status : String
  Options : Option Map
  Credentials : Option Map
  Definition : String
  Mapping : Option Map
deriving DecidableEq, Repr

/-- The Go zero value `ServiceView{}`. -/
def ServiceView.zero : ServiceView :=
  { ID := 0, IDs := [], Names := [], UUID := "", UserID := 0, DatacenterID := 0,
    Name := "", Typ := "", Version := 0, Status := "", Options := none,
    Credentials := none, Definition := "", Mapping := none }

/-- The Go zero value `models.Environment{}`. -/
def Environment.zero : Environment :=
  { ID := 0, Name := "", DatacenterID := 0, Typ := "", Status := "",
    Options := none, Credentials := none }

/-- The relational store: the rows of both tables and the last value handed out
by each primary-key sequence. -/
structure DB where
  environments : List Environment
  builds : List Build
  envSeq : Nat
  buildSeq : Nat
deriving DecidableEq, Repr

/-- The store right after the schema is created: no rows, sequences unused. -/
def DB.empty : DB :=
  { environments := [], builds := [], envSeq := 0, buildSeq := 0 }

/-! ## MapInput -/

/-- The JSON object carried by a message body, as `encoding/json` sees it through
the `json` tags of `ServiceView`: one entry per tag, `none` when the key is
absent from the body.  The tag of `ID` is `-`, so no key reaches `ID`; the key
`id` is the tag of `UUID`, and `typ` stands for the key `type`.  For a map-valued
key, `some none` is the JSON value `null`. -/
structure Payload where
  ids : Option (List String)
  names : Option (List String)
  id : Option String
  user_id : Option Nat
  datacenter_id : Option Nat
  name : Option String
  typ : Option String
  version : Option Nat
  status : Option String
  options : Option (Option Map)
  credentials : Option (Option Map)
  definition : Option String
  mapping : Option (Option Map)
deriving DecidableEq, Repr

/-- The body `{}`: no key present. -/
def Payload.none : Payload :=
  { ids := Option.none, names := Option.none, id := Option.none,
    user_id := Option.none, datacenter_id := Option.none, name := Option.none,
    typ := Option.none, version := Option.none, status := Option.none,
    options := Option.none, credentials := Option.none,
    definition := Option.none, mapping := Option.none }

/-- Store one key of a JSON object into a Go map: an existing key is
overwritten in place, a new key is added. -/
def Map.set : Map → String × String → Map
  | [], kv => [kv]
  | (k, v) :: rest, kv => if k = kv.1 then (k, kv.2) :: rest else (k, v) :: Map.set rest kv

/-- Decoding of a map-valued key by `json.Unmarshal`: an absent key leaves the
field, `null` sets it to `nil`, an object is stored key by key into the map the
field already holds (a fresh map when the field is `nil`). -/
def decodeMap (field : Option Map) : Option (Option Map) → Option Map
  | Option.none => field
  | some Option.none => Option.none
  | some (some obj) => some (obj.foldl Map.set (field.getD []))

/-- `func (s *ServiceView) MapInput(body []byte)`: `json.Unmarshal(body, &s)`.
`body` is `none` for a body that is not valid JSON: `Unmarshal` then returns its
error before touching `s`, the error is logged and `s` is left as it was. -/
def MapInput (s : ServiceView) (body : Option Payload) : ServiceView :=
  match body with
  | Option.none => s
  | some p =>
    { ID := s.ID,
      IDs := p.ids.getD s.IDs,
      Names := p.names.getD s.Names,
      UUID := p.id.getD s.UUID,
      UserID := p.user_id.getD s.UserID,
      DatacenterID := p.datacenter_id.getD s.DatacenterID,
      Name := p.name.getD s.Name,
      Typ := p.typ.getD s.Typ,
      Version := p.version.getD s.Version,
      Status := p.status.getD s.Status,
      Options := decodeMap s.Options p.options,
      Credentials := decodeMap s.Credentials p.credentials,
      Definition := p.definition.getD s.Definition,
      Mapping := decodeMap s.Mapping p.mapping }

/-- `func (s *ServiceView) HasID() bool`. -/
def HasID (s : ServiceView) : Bool := s.ID != 0

/-! ## Find -/

/-- One `Where(...)` clause put on the joined query. -/
inductive Where where
  | buildUUIDIn (ids : List String)
  | envNameIn (names : List String)
  | envNameEq (name : String)
  | buildUUIDEq (uuid : String)
  | envDatacenterEq (datacenter : Nat)
deriving DecidableEq, Repr

/-- Whether a joined row (one environment with one of its builds) passes a
clause. -/
def Where.holds : Where → Environment → Build → Bool
  | .buildUUIDIn ids, _, b => decide (b.UUID ∈ ids)
  | .envNameIn names, e, _ => decide (e.Name ∈ names)
  | .envNameEq name, e, _ => decide (e.Name = name)
  | .buildUUIDEq uuid, _, b => decide (b.UUID = uuid)
  | .envDatacenterEq d, e, _ => decide (e.DatacenterID = d)

/-- The rows of
`environments INNER JOIN builds ON (builds.environment_id = environments.id)`. -/
def joinRows (db : DB) : List (Environment × Build) :=
  db.environments.flatMap fun e =>
    (db.builds.filter fun b => b.EnvironmentID = e.ID).map fun b => (e, b)

/-- The rows of the join that pass every clause of the query. -/
def selectRows (db : DB) (q : List Where) : List (Environment × Build) :=
  (joinRows db).filter fun r => q.all fun w => w.holds r.1 r.2

/-- The clauses `Find` puts on the query (lines 44 to 62), branch by branch. -/
def findWhere (s : ServiceView) : List Where :=
  if s.IDs.length > 0 then
    [.buildUUIDIn s.IDs]
  else if s.Names.length > 0 then
    [.envNameIn s.Names]
  else if s.Name ≠ "" then
    if s.UUID ≠ "" then
      [.envNameEq s.Name, .buildUUIDEq s.UUID]
    else
      [.envNameEq s.Name]
  else
    if s.UUID ≠ "" then
      [.buildUUIDEq s.UUID]
    else if s.Name ≠ "" then
      [.envNameEq s.Name]
    else if s.DatacenterID ≠ 0 then
      [.envDatacenterEq s.DatacenterID]
    else
      []

/-- The column list selected by `Find`, scanned into a `ServiceView`:
`builds.id as id, builds.uuid, builds.user_id, builds.status, builds.definition,
builds.created_at as version, environments.name, environments.datacenter_id,
environments.options, environments.credentials, environments.type`.
Fields without a column keep their zero value. -/
def findSelect (r : Environment × Build) : ServiceView :=
  { ServiceView.zero with
    ID := r.2.ID, UUID := r.2.UUID, UserID := r.2.UserID, Status := r.2.Status,
    Definition := r.2.Definition, Version := r.2.CreatedAt, Name := r.1.Name,
    DatacenterID := r.1.DatacenterID, Options := r.1.Options,
    Credentials := r.1.Credentials, Typ := r.1.Typ }

/-- The relation of `ORDER BY version desc`. -/
def versionDesc (a b : ServiceView) : Prop := b.Version ≤ a.Version

instance : DecidableRel versionDesc := fun a b => inferInstanceAs (Decidable (b.Version ≤ a.Version))

/-- `func (s *ServiceView) Find() []interface{}`.  `queryErr` is the error of
`q.Order("version desc").Find(&services)`; the source does not look at it, and a
failed query leaves `services` empty. -/
def Find (queryErr : Option String) (db : DB) (s : ServiceView) : List ServiceView :=
  match queryErr with
  | some _ => []
  | none => ((selectRows db (findWhere s)).map findSelect).insertionSort versionDesc

/-! ## Store calls used by the writers -/

/-- The row with the least primary key, the one `ORDER BY id ASC LIMIT 1`
returns. -/
def leastID : List Environment → Option Environment
  | [] => none
  | e :: rest =>
    match leastID rest with
    | none => some e
    | some a => if a.ID < e.ID then some a else some e

/-- `Where("name = ?", name).First(&env)` on `environments`: the row with the
least primary key among the rows named `name`, `none` when there is no such row
(`ErrRecordNotFound`, which leaves `env` as it was). -/
def firstByName (envs : List Environment) (name : String) : Option Environment :=
  leastID (envs.filter fun e => e.Name = name)

/-- `INSERT INTO environments`: a blank primary key is filled from the sequence,
a set one is stored as given. -/
def createEnvironment (db : DB) (env : Environment) : DB × Environment :=
  if env.ID = 0 then
    let row := { env with ID := db.envSeq + 1 }
    ({ db with environments := db.environments ++ [row], envSeq := db.envSeq + 1 }, row)
  else
    ({ db with environments := db.environments ++ [env] }, env)

/-- `tx.Where("name = ?", name).FirstOrCreate(&env)`: when a row named `name`
exists it is loaded into `env`, otherwise `env` is inserted.  `err` is the error
the store answers with; a failed call changes nothing. -/
def firstOrCreateByName (err : Option String) (db : DB) (name : String) (env : Environment) :
    Option String × DB × Environment :=
  match err with
  | some e => (some e, db, env)
  | none =>
    match firstByName db.environments name with
    | some found => (none, db, found)
    | none => (none, createEnvironment db env)

/-- `tx.Exec("UPDATE environments SET status = ? WHERE id = ?", status, id)`. -/
def execSetStatus (err : Option String) (db : DB) (status : String) (id : Nat) :
    Option String × DB :=
  match err with
  | some e => (some e, db)
  | none =>
    (none, { db with environments :=
      db.environments.map fun e => if e.ID = id then { e with Status := status } else e })

/-- `tx.Save(&build)` for a build whose primary key is blank, as the literal
built by `Save` is: an `INSERT` that takes the next value of the sequence and
stamps `CreatedAt` with the clock reading `now`. -/
def saveBuild (err : Option String) (now : Nat) (db : DB) (build : Build) :
    Option String × DB × Build :=
  match err with
  | some e => (some e, db, build)
  | none =>
    let row := { build with ID := db.buildSeq + 1, CreatedAt := now }
    (none, { db with builds := db.builds ++ [row], buildSeq := db.buildSeq + 1 }, row)

/-- `db.Save(&env)`: with a blank primary key an `INSERT`; otherwise an `UPDATE`
of every column of the rows with that primary key, and when no row has it the
value is inserted. -/
def saveEnvironment (err : Option String) (db : DB) (env : Environment) :
    Option String × DB × Environment :=
  match err with
  | some e => (some e, db, env)
  | none =>
    if env.ID = 0 then
      (none, createEnvironment db env)
    else if db.environments.any (fun e => e.ID = env.ID) then
      (none, { db with environments :=
        db.environments.map fun e => if e.ID = env.ID then env else e }, env)
    else
      (none, createEnvironment db env)

/-- What is left of a transaction that is not committed: the tables are as they
were when it began, the sequences keep the values it drew. -/
def rollbackTo (db tx : DB) : DB :=
  { db with envSeq := tx.envSeq, buildSeq := tx.buildSeq }

/-! ## LoadFromInput -/

/-- The clause `LoadFromInput` puts on the query (lines 94 to 98). -/
def loadWhere (s : ServiceView) : List Where :=
  if s.UUID ≠ "" then
    [.buildUUIDEq s.UUID]
  else if s.Name ≠ "" then
    [.envNameEq s.Name]
  else
    []

/-- The column list selected by `LoadFromInput`, scanned into a `ServiceView`:
`builds.id as id, builds.uuid, builds.user_id, builds.status,
builds.created_at as version, environments.name, environments.datacenter_id,
environments.options, environments.credentials`. -/
def loadSelect (r : Environment × Build) : ServiceView :=
  { ServiceView.zero with
    ID := r.2.ID, UUID := r.2.UUID, UserID := r.2.UserID, Status := r.2.Status,
    Version := r.2.CreatedAt, Name := r.1.Name, DatacenterID := r.1.DatacenterID,
    Options := r.1.Options, Credentials := r.1.Credentials }

/-- The rows `First` may return.  `First` orders the query by the primary key of
the queried table, `environments.id`, and takes one row: any row whose
environment has the least primary key can be the one. -/
def firstCandidates (rows : List (Environment × Build)) : List (Environment × Build) :=
  rows.filter fun r => rows.all fun r2 => decide (r.1.ID ≤ r2.1.ID)

/-- `q.First(&stored)` on the joined query.  The order among the builds of one
environment is left to the store; `tie` stands for its choice. -/
def firstRow (tie : Nat) (rows : List (Environment × Build)) : Option (Environment × Build) :=
  (firstCandidates rows)[tie % (firstCandidates rows).length]?

/-- `func (s *ServiceView) LoadFromInput(msg []byte) bool`, returning the boolean
and the receiver after the call.  `queryErr` is an error of the store on
`q.First(&stored)` other than record-not-found. -/
def LoadFromInput (queryErr : Option String) (tie : Nat) (db : DB) (s : ServiceView)
    (msg : Option Payload) : Bool × ServiceView :=
  let s := MapInput s msg
  match queryErr with
  | some _ => (false, s)
  | none =>
    match firstRow tie (selectRows db (loadWhere s)) with
    | none => (false, s)
    | some r =>
      let stored := loadSelect r
      if !HasID stored then (false, s) else (true, stored)

/-! ## Update -/

/-- The errors the store answers with to the two calls of `Update`. -/
structure UpdateFaults where
  first : Option String
  save : Option String
deriving DecidableEq, Repr

/-- `func (s *ServiceView) Update(body []byte) error`, returning the error, the
store and the receiver after the call.  The error of `First` is not looked at:
when no row is found, or the query fails, `env` keeps its zero value. -/
def Update (f : UpdateFaults) (db : DB) (s : ServiceView) (body : Option Payload) :
    Option String × DB × ServiceView :=
  let s := MapInput s body
  if s.Name = "" then
    (some "service name was not specified", db, s)
  else
    let env : Environment :=
      match f.first with
      | some _ => Environment.zero
      | none => (firstByName db.environments s.Name).getD Environment.zero
    let env := { env with Options := s.Options, Credentials := s.Credentials }
    let r := saveEnvironment f.save db env
    (r.1, r.2.1, s)

/-! ## Save -/

/-- The errors the store answers with to the calls of one `Save`, in the order
of the source: `FirstOrCreate`, the `UPDATE` of the status, `Save(&build)`,
`Save(&env)`, and in the deferred function `Commit` and `Rollback`. -/
structure SaveFaults where
  firstOrCreate : Option String
  statusUpdate : Option String
  buildSave : Option String
  envSave : Option String
  commit : Option String
  rollback : Option String
deriving DecidableEq, Repr

/-- Every call of the store succeeds. -/
def SaveFaults.none : SaveFaults :=
  { firstOrCreate := Option.none, statusUpdate := Option.none, buildSave := Option.none,
    envSave := Option.none, commit := Option.none, rollback := Option.none }

/-- The error of line 197. -/
def errInProgress : String :=
  "\x7b\"error\": \"could not create environment build: service in progress\"\x7d"

/-- The error of line 199. -/
def errUnknownState : String :=
  "\x7b\"error\": \"could not create environment build: unknown service state\"\x7d"

/-- State of `Save` at a `return` statement: the value handed to the caller, the
store as the open transaction sees it, and the receiver. -/
structure SaveBody where
  ret : Option String
  tx : DB
  s : ServiceView
deriving DecidableEq, Repr

/-- The `switch env.Status` of lines 193 to 200: the error it leaves in `err`
and the store as the transaction sees it afterwards. -/
def statusGate (updateErr : Option String) (tx : DB) (env : Environment) : Option String × DB :=
  if env.Status = "initializing" ∨ env.Status = "done" ∨ env.Status = "errored" then
    execSetStatus updateErr tx "in_progress" env.ID
  else if env.Status = "in_progress" then
    (some errInProgress, tx)
  else
    (some errUnknownState, tx)

/-- Lines 193 to 231 of `Save`: the status gate, the insert of the build, and
the re-save of the environment when the request carries credentials.  `env` is
the local variable as `FirstOrCreate` left it. -/
def saveBuildSteps (f : SaveFaults) (now : Nat) (tx : DB) (s : ServiceView)
    (env : Environment) : SaveBody :=
  match statusGate f.statusUpdate tx env with
  | (some err, tx) => { ret := some err, tx := tx, s := s }
  | (none, tx) =>
    let build : Build :=
      { ID := 0, UUID := s.UUID, EnvironmentID := env.ID, UserID := s.UserID,
        Typ := s.Typ, Status := "in_progress", Definition := s.Definition,
        Mapping := s.Mapping, CreatedAt := 0 }
    match saveBuild f.buildSave now tx build with
    | (some err, tx, _) => { ret := some err, tx := tx, s := s }
    | (none, tx, build) =>
      let s := { s with Version := build.CreatedAt, Status := build.Status }
      match s.Credentials with
      | none => { ret := none, tx := tx, s := s }
      | some credentials =>
        let env := { env with Credentials := some credentials }
        let r := saveEnvironment f.envSave tx env
        { ret := r.1, tx := r.2.1, s := s }

/-- Lines 174 to 231 of `Save`, run inside the transaction that starts from
`db`. -/
def saveBody (f : SaveFaults) (now : Nat) (db : DB) (s : ServiceView) : SaveBody :=
  let env : Environment :=
    { ID := 0, Name := s.Name, DatacenterID := s.DatacenterID, Typ := s.Typ,
      Options := s.Options, Credentials := s.Credentials, Status := "initializing" }
  match firstOrCreateByName f.firstOrCreate db s.Name env with
  | (some err, tx, _) => { ret := some err, tx := tx, s := s }
  | (none, tx, env) =>
    if s.UUID = "" ∧ s.Typ = "" then
      { ret := none, tx := tx, s := s }
    else
      saveBuildSteps f now tx s env

/-- Outcome of a call of `Save`: the error the caller receives, the local
variable `err` once the deferred function has run, the store, and the
receiver. -/
structure SaveResult where
  ret : Option String
  err : Option String
  db : DB
  s : ServiceView
deriving DecidableEq, Repr

/-- `func (s *ServiceView) Save() error`.  The result of the function is unnamed,
so each `return` fixes the value handed to the caller before the deferred
function runs; the deferred function commits when the local `err` is `nil` and
rolls back otherwise, and stores the outcome in the local `err` only. -/
def Save (f : SaveFaults) (now : Nat) (db : DB) (s : ServiceView) : SaveResult :=
  let b := saveBody f now db s
  match b.ret with
  | none =>
    match f.commit with
    | none => { ret := none, err := none, db := b.tx, s := b.s }
    | some e => { ret := none, err := some e, db := rollbackTo db b.tx, s := b.s }
  | some e => { ret := some e, err := f.rollback, db := rollbackTo db b.tx, s := b.s }

/-- The store after a run of `Save` calls, each with its own faults, clock
reading and request. -/
def runSaves (db : DB) : List (SaveFaults × Nat × ServiceView) → DB
  | [] => db
  | (f, now, s) :: rest => runSaves (Save f now db s).db rest

/-- The builds of the environment with primary key `id` whose status is
`in_progress`. -/
def inProgressBuilds (db : DB) (id : Nat) : List Build :=
  db.builds.filter fun b => b.EnvironmentID = id ∧ b.Status = "in_progress"

/-- The environments of the store named `n`. -/
def envsNamed (db : DB) (n : String) : List Environment :=
  db.environments.filter fun e => e.Name = n

/-! ## The filter of `Find` as the specification words it -/

/-- The filter of the precedence list of the specification (section 4.1):
`ids`, else `names`, else `name` (with `uuid` when it is set), else `uuid`, else
`datacenterID`, else none. -/
def specFindFilter (s : ServiceView) : List Where :=
  if s.IDs ≠ [] then [.buildUUIDIn s.IDs]
  else if s.Names ≠ [] then [.envNameIn s.Names]
  else if s.Name ≠ "" then
    (if s.UUID ≠ "" then [.envNameEq s.Name, .buildUUIDEq s.UUID] else [.envNameEq s.Name])
  else if s.UUID ≠ "" then [.buildUUIDEq s.UUID]
  else if s.DatacenterID ≠ 0 then [.envDatacenterEq s.DatacenterID]
  else []

instance : IsTotal ServiceView versionDesc := ⟨fun a b => Nat.le_total b.Version a.Version⟩

instance : IsTrans ServiceView versionDesc := ⟨fun _ _ _ hab hbc => Nat.le_trans hbc hab⟩

/-! ## Notions used to state the properties of `Save` and `LoadFromInput` -/

/-- The status values from which the gate lets a build start. -/
def gateOpen (env : Environment) : Prop :=
  env.Status = "initializing" ∨ env.Status = "done" ∨ env.Status = "errored"

instance (env : Environment) : Decidable (gateOpen env) := by
  unfold gateOpen; infer_instance

/-- The rows of `environments` after the `UPDATE` of the status gate. -/
def markInProgress (envs : List Environment) (id : Nat) : List Environment :=
  envs.map fun e => if e.ID = id then { e with Status := "in_progress" } else e

/-- The row `Save` inserts into `builds`. -/
def buildRow (s : ServiceView) (envID id now : Nat) : Build :=
  { ID := id, UUID := s.UUID, EnvironmentID := envID, UserID := s.UserID, Typ := s.Typ,
    Status := "in_progress", Definition := s.Definition, Mapping := s.Mapping, CreatedAt := now }

/-- The environment literal of lines 174 to 181. -/
def envLiteral (s : ServiceView) : Environment :=
  { ID := 0, Name := s.Name, DatacenterID := s.DatacenterID, Typ := s.Typ,
    Options := s.Options, Credentials := s.Credentials, Status := "initializing" }

/-- The store after the status gate and the insert of the build. -/
def withBuild (tx : DB) (s : ServiceView) (env : Environment) (now : Nat) : DB :=
  { environments := markInProgress tx.environments env.ID,
    builds := tx.builds ++ [buildRow s env.ID (tx.buildSeq + 1) now],
    envSeq := tx.envSeq, buildSeq := tx.buildSeq + 1 }

/-- The consistency the specification asks of a store: distinct primary keys
drawn from the sequence, distinct names, every build in progress owned by an
environment that is in progress, and at most one build in progress for each
environment. -/
structure Consistent (db : DB) : Prop where
  keys : (db.environments.map (·.ID)).Nodup
  names : (db.environments.map (·.Name)).Nodup
  seq : ∀ e ∈ db.environments, e.ID ≤ db.envSeq
  owner : ∀ b ∈ db.builds, b.Status = "in_progress" →
    ∃ e ∈ db.environments, e.ID = b.EnvironmentID ∧ e.Status = "in_progress"
  single : ∀ id, (inProgressBuilds db id).length ≤ 1

/-- Whether a stored pair is the one a decoded request asks for: the build with
the request's uuid when it has one, otherwise the environment with the
request's name. -/
def identifies (s : ServiceView) (e : Environment) (b : Build) : Prop :=
  if s.UUID ≠ "" then b.UUID = s.UUID else e.Name = s.Name

/-! ## Concrete requests and stores -/

/-- A request that only names an environment. -/
def shellRequest : ServiceView :=
  { ServiceView.zero with Name := "env-x", DatacenterID := 7 }

/-- A request for a first build of `env-x`. -/
def firstBuild : ServiceView :=
  { ServiceView.zero with Name := "env-x", UUID := "b-1", Typ := "terraform", UserID := 3 }

/-- The request `firstBuild`, carrying credentials as well. -/
def firstBuildWithCredentials : ServiceView :=
  { firstBuild with Credentials := some [("token", "t-1")] }

/-- A request for a second build of `env-x`. -/
def secondBuild : ServiceView :=
  { ServiceView.zero with Name := "env-x", UUID := "b-2", Typ := "terraform", UserID := 3 }

/-- The request `secondBuild`, carrying credentials as well. -/
def secondBuildWithCredentials : ServiceView :=
  { secondBuild with Credentials := some [("token", "t-2")] }

/-- A store holding the environment `env-x` and no build. -/
def shellStore : DB :=
  { environments :=
      [{ ID := 1, Name := "env-x", DatacenterID := 7, Typ := "", Status := "initializing",
         Options := none, Credentials := none }],
    builds := [], envSeq := 1, buildSeq := 0 }

/-- The environment `env-x` while its build `b-1` is running. -/
def envInProgress : Environment :=
  { ID := 1, Name := "env-x", DatacenterID := 0, Typ := "terraform", Status := "in_progress",
    Options := none, Credentials := none }

/-- The build `b-1` of `env-x` while it is running. -/
def buildInProgress : Build :=
  { ID := 1, UUID := "b-1", EnvironmentID := 1, UserID := 3, Typ := "terraform",
    Status := "in_progress", Definition := "", Mapping := none, CreatedAt := 10 }

/-- A store in which `env-x` has its build `b-1` in progress. -/
def progressStore : DB :=
  { environments := [envInProgress], builds := [buildInProgress], envSeq := 1, buildSeq := 1 }

/-- The environment `env-x` once its build `b-1` is done. -/
def envDone : Environment :=
  { ID := 1, Name := "env-x", DatacenterID := 7, Typ := "terraform", Status := "done",
    Options := some [("region", "eu")], Credentials := some [("token", "t-1")] }

/-- A store in which `env-x` and its only build `b-1` are done. -/
def doneStore : DB :=
  { environments := [envDone],
    builds := [{ buildInProgress with Status := "done" }],
    envSeq := 1, buildSeq := 1 }

/-- An update body with the keys `name` and `credentials` only. -/
def credentialsOnly : Payload :=
  { Payload.none with name := some "env-x", credentials := some (some [("token", "t-2")]) }

/-- An update body with the keys `name`, `options` and `credentials`. -/
def optionsAndCredentials : Payload :=
  { Payload.none with
    name := some "env-x", options := some (some [("region", "eu")]),
    credentials := some (some [("token", "t-1")]) }

/-- The store calls of `Update` both succeed. -/
def UpdateFaults.none : UpdateFaults := { first := Option.none, save := Option.none }

/-! ## Lookups by name -/


/-- Under unique names the rows named like `e` are `e` alone. -/
theorem filter_name_of_mem {envs : List Environment} {e : Environment}
    (hnd : (envs.map (·.Name)).Nodup) (he : e ∈ envs) :
    envs.filter (fun x => x.Name = e.Name) = [e] := by
  induction envs with
  | nil => cases he
  | cons x xs ih =>
    rw [List.map_cons, List.nodup_cons] at hnd
    rcases List.mem_cons.1 he with rfl | hmem
    · have : xs.filter (fun x => x.Name = e.Name) = [] := by
        rw [List.filter_eq_nil_iff]
        intro y hy hname
        exact hnd.1 (List.mem_map.2 ⟨y, hy, by simpa using hname⟩)
      simp [List.filter_cons, this]
    · have hne : x.Name ≠ e.Name := by
        intro h
        exact hnd.1 (List.mem_map.2 ⟨e, hmem, h.symm⟩)
      simp [List.filter_cons, hne, ih hnd.2 hmem]

/-- Under unique names the lookup by name finds the row that carries the name. -/
theorem firstByName_of_mem {envs : List Environment} {e : Environment}
    (hnd : (envs.map (·.Name)).Nodup) (he : e ∈ envs) :
    firstByName envs e.Name = some e := by
  unfold firstByName
  rw [filter_name_of_mem hnd he]
  rfl

/-- A name no row carries is not found. -/
theorem firstByName_of_absent {envs : List Environment} {n : String}
    (h : ∀ e ∈ envs, e.Name ≠ n) : firstByName envs n = none := by
  unfold firstByName
  have : envs.filter (fun x => x.Name = n) = [] := by
    rw [List.filter_eq_nil_iff]
    intro y hy hname
    exact h y hy (by simpa using hname)
  rw [this]; rfl




/-- A row appended under a name no earlier row carries is the one found. -/
theorem firstByName_append_new {envs : List Environment} {x : Environment}
    (h : ∀ e ∈ envs, e.Name ≠ x.Name) : firstByName (envs ++ [x]) x.Name = some x := by
  unfold firstByName
  have : envs.filter (fun y => y.Name = x.Name) = [] := by
    rw [List.filter_eq_nil_iff]
    intro y hy hname
    exact h y hy (by simpa using hname)
  rw [List.filter_append, this]
  simp [List.filter_cons, leastID]

/-- Rows of one table with the same primary key are the same row. -/
theorem eq_of_key_eq {envs : List Environment} (hkeys : (envs.map (·.ID)).Nodup)
    {x e : Environment} (hx : x ∈ envs) (he : e ∈ envs) (h : x.ID = e.ID) : x = e :=
  List.inj_on_of_nodup_map hkeys hx he h

/-- The row `leastID` returns is one of the rows. -/
theorem leastID_mem {l : List Environment} {e : Environment} (h : leastID l = some e) :
    e ∈ l := by
  induction l generalizing e with
  | nil => simp [leastID] at h
  | cons x xs ih =>
    unfold leastID at h
    cases hr : leastID xs with
    | none =>
      simp only [hr, Option.some.injEq] at h
      simp [← h]
    | some a =>
      simp only [hr] at h
      by_cases hlt : a.ID < x.ID
      · simp only [hlt, if_true, Option.some.injEq] at h
        subst h
        exact List.mem_cons_of_mem _ (ih hr)
      · simp only [hlt, if_false, Option.some.injEq] at h
        simp [← h]

/-- Only the empty table has no least row. -/
theorem leastID_eq_none {l : List Environment} (h : leastID l = none) : l = [] := by
  cases l with
  | nil => rfl
  | cons x xs =>
    unfold leastID at h
    cases hr : leastID xs with
    | none => simp [hr] at h
    | some a =>
      simp only [hr] at h
      by_cases hlt : a.ID < x.ID <;> simp [hlt] at h

/-- The row found by name is a row of the table and carries the name. -/
theorem firstByName_mem {envs : List Environment} {n : String} {e : Environment}
    (h : firstByName envs n = some e) : e ∈ envs ∧ e.Name = n := by
  have := leastID_mem h
  simpa [List.mem_filter] using this

/-- When the lookup by name finds nothing, no row carries the name. -/
theorem firstByName_eq_none {envs : List Environment} {n : String}
    (h : firstByName envs n = none) : ∀ e ∈ envs, e.Name ≠ n := by
  intro e he hname
  have := leastID_eq_none h
  rw [List.filter_eq_nil_iff] at this
  exact this e he (by simpa using hname)

/-! ## Find -/


/-- The source branches of `Find` select the filter of the specification. -/
theorem findWhere_eq_specFindFilter (s : ServiceView) : findWhere s = specFindFilter s := by
  unfold findWhere specFindFilter
  cases hi : s.IDs <;> cases hn : s.Names <;> by_cases h1 : s.Name = "" <;>
    by_cases h2 : s.UUID = "" <;> by_cases h3 : s.DatacenterID = 0 <;> simp [h1, h2, h3]

/-- The rows of the join are the pairs of an environment and a build that references it. -/
theorem mem_joinRows {db : DB} {e : Environment} {b : Build} :
    (e, b) ∈ joinRows db ↔ e ∈ db.environments ∧ b ∈ db.builds ∧ b.EnvironmentID = e.ID := by
  unfold joinRows
  simp only [List.mem_flatMap, List.mem_map, List.mem_filter, decide_eq_true_eq, Prod.mk.injEq]
  constructor
  · rintro ⟨e2, he2, b2, ⟨hb2, hid⟩, rfl, rfl⟩
    exact ⟨he2, hb2, hid⟩
  · rintro ⟨he, hb, hid⟩
    exact ⟨e, he, b, ⟨hb, hid⟩, rfl, rfl⟩

/-- A request with no filter field set puts no clause on the query. -/
theorem findWhere_unfiltered {s : ServiceView} (hids : s.IDs = []) (hnames : s.Names = [])
    (hname : s.Name = "") (huuid : s.UUID = "") (hdc : s.DatacenterID = 0) :
    findWhere s = [] := by
  simp [findWhere, hids, hnames, hname, huuid, hdc]

/-- A query without clauses selects the whole join. -/
theorem selectRows_nil (db : DB) : selectRows db [] = joinRows db := by
  simp [selectRows]

/-- C5: the filter `Find` applies is the one of the strict precedence list:
`ids`, else `names`, else `name` (together with `uuid` when it is set), else
`uuid`, else `datacenterID`, else no filter; the result of `Find` is the join
filtered that way, newest first; and a request whose `ids` is non-empty applies
the `ids` filter alone, whatever its `name`. -/
theorem Find_filter_precedence (s : ServiceView) :
    findWhere s = specFindFilter s ∧
    (∀ db, Find none db s =
      ((selectRows db (specFindFilter s)).map findSelect).insertionSort versionDesc) ∧
    (∀ i ids, findWhere { s with IDs := i :: ids } = [Where.buildUUIDIn (i :: ids)]) := by
  refine ⟨findWhere_eq_specFindFilter s, ?_, ?_⟩
  · intro db
    simp [Find, findWhere_eq_specFindFilter]
  · intro i ids
    simp [findWhere]

/-- C9, as the claim states it, fails: in the store that a `Save` without build
fields leaves behind, an unfiltered `Find` returns nothing, so the stored
environment `env-x` is not in the result. -/
theorem Find_unfiltered_misses_shell :
    shellStore = (Save SaveFaults.none 0 DB.empty shellRequest).db ∧
    Find none shellStore ServiceView.zero = [] ∧
    ¬ (∀ e ∈ shellStore.environments, ∃ v ∈ Find none shellStore ServiceView.zero,
        v.Name = e.Name) := by
  decide

/-- C9, amended: for a request with no filter field set, a `Find` whose query
succeeds returns exactly one view per pair of a stored environment and a build
that references it, newest version first; an environment is listed only through
its builds, so when no build references any environment the result is empty;
and a failed query yields the empty result, never an error. -/
theorem Find_unfiltered_lists_joined_rows (db : DB) (s : ServiceView) (hids : s.IDs = []) (hnames : s.Names = [])
    (hname : s.Name = "") (huuid : s.UUID = "") (hdc : s.DatacenterID = 0) :
    (Find none db s).Perm ((joinRows db).map findSelect) ∧
    (Find none db s).Sorted versionDesc ∧
    (∀ v, v ∈ Find none db s ↔
      ∃ e ∈ db.environments, ∃ b ∈ db.builds, b.EnvironmentID = e.ID ∧ v = findSelect (e, b)) ∧
    ((∀ e ∈ db.environments, ∀ b ∈ db.builds, b.EnvironmentID ≠ e.ID) → Find none db s = []) ∧
    (∀ err, Find (some err) db s = []) := by
  have hq := findWhere_unfiltered hids hnames hname huuid hdc
  have hfind : Find none db s = ((joinRows db).map findSelect).insertionSort versionDesc := by
    simp [Find, hq, selectRows_nil]
  have hmem : ∀ v, v ∈ Find none db s ↔
      ∃ e ∈ db.environments, ∃ b ∈ db.builds, b.EnvironmentID = e.ID ∧ v = findSelect (e, b) := by
    intro v
    rw [hfind, List.mem_insertionSort, List.mem_map]
    constructor
    · rintro ⟨⟨e, b⟩, hr, rfl⟩
      obtain ⟨he, hb, hid⟩ := mem_joinRows.1 hr
      exact ⟨e, he, b, hb, hid, rfl⟩
    · rintro ⟨e, he, b, hb, hid, rfl⟩
      exact ⟨(e, b), mem_joinRows.2 ⟨he, hb, hid⟩, rfl⟩
  refine ⟨?_, ?_, hmem, ?_, fun _ => rfl⟩
  · rw [hfind]
    exact List.perm_insertionSort _ _
  · rw [hfind]
    exact List.sorted_insertionSort _ _
  · intro hnone
    apply List.eq_nil_iff_forall_not_mem.2
    intro v hv
    obtain ⟨e, he, b, hb, hid, _⟩ := (hmem v).1 hv
    exact hnone e he b hb hid

/-- Witness of C9, amended: the unfiltered listing of the store in which `env-x`
has one build. -/
theorem Find_unfiltered_lists_joined_rows_witness :
    (Find none progressStore ServiceView.zero).Perm ((joinRows progressStore).map findSelect) ∧
    (Find none progressStore ServiceView.zero).Sorted versionDesc ∧
    (∀ v, v ∈ Find none progressStore ServiceView.zero ↔
      ∃ e ∈ progressStore.environments, ∃ b ∈ progressStore.builds,
        b.EnvironmentID = e.ID ∧ v = findSelect (e, b)) ∧
    ((∀ e ∈ progressStore.environments, ∀ b ∈ progressStore.builds, b.EnvironmentID ≠ e.ID) →
      Find none progressStore ServiceView.zero = []) ∧
    (∀ err, Find (some err) progressStore ServiceView.zero = []) :=
  Find_unfiltered_lists_joined_rows progressStore ServiceView.zero rfl rfl rfl rfl rfl

/-! ## Update -/


/-- C6, as the claim states it, fails: `env-x` is stored with options; an
`Update` on a fresh view whose body carries `name` and `credentials` only
succeeds and leaves `env-x` without options. -/
theorem Update_credentials_only_resets_options :
    doneStore.environments.map (fun e => (e.Name, e.Options)) =
      [("env-x", some [("region", "eu")])] ∧
    (Update UpdateFaults.none doneStore ServiceView.zero (some credentialsOnly)).1 = none ∧
    (Update UpdateFaults.none doneStore ServiceView.zero
      (some credentialsOnly)).2.1.environments.map (fun e => (e.Name, e.Options)) =
      [("env-x", none)] := by
  decide

/-- C6, amended: in a store with distinct primary keys and distinct names that
holds an environment `e` with a non-empty name, an `Update` whose decoded view
carries that name and whose store calls succeed returns no error, replaces `e`
by `e` with the options and the credentials of the decoded view, and changes no
other row and no other field; when the body has no `options` key the options
written are those the receiver held before decoding. -/
theorem Update_overwrites_options_and_credentials (f : UpdateFaults) (db : DB) (s : ServiceView)
    (body : Option Payload) (e : Environment)
    (hkeys : (db.environments.map (·.ID)).Nodup)
    (hnames : (db.environments.map (·.Name)).Nodup)
    (he : e ∈ db.environments) (hid : e.ID ≠ 0) (hne : e.Name ≠ "")
    (hname : (MapInput s body).Name = e.Name)
    (hfirst : f.first = none) (hsave : f.save = none) :
    (Update f db s body).1 = none ∧
    (Update f db s body).2.1 =
      { db with environments := db.environments.map fun x =>
          if x = e then
            { e with Options := (MapInput s body).Options,
                     Credentials := (MapInput s body).Credentials }
          else x } ∧
    (∀ p, body = some p → p.options = none → (MapInput s body).Options = s.Options) := by
  have hfind : firstByName db.environments (MapInput s body).Name = some e := by
    rw [hname]; exact firstByName_of_mem hnames he
  have hne2 : (MapInput s body).Name ≠ "" := by rw [hname]; exact hne
  have hany : (db.environments.any fun x => decide (x.ID = e.ID)) = true :=
    List.any_eq_true.2 ⟨e, he, by simp⟩
  refine ⟨?_, ?_, ?_⟩
  · simp [Update, hne2, hfirst, hfind, saveEnvironment, hsave, hid, hany]
  · simp only [Update, hne2, hfirst, hfind, saveEnvironment, hsave, hid, hany, if_false,
      Option.getD_some, if_true]
    congr 1
    apply List.map_congr_left
    intro x hx
    by_cases hxe : x = e
    · simp [hxe]
    · have : x.ID ≠ e.ID := fun h => hxe (eq_of_key_eq hkeys hx he h)
      simp [hxe, this]
  · rintro p rfl hp
    simp [MapInput, hp, decodeMap]

/-- Witness of C6, amended: the credentials-only update of `env-x`. -/
theorem Update_overwrites_options_and_credentials_witness :
    envDone ∈ doneStore.environments ∧
    (Update UpdateFaults.none doneStore ServiceView.zero (some credentialsOnly)).1 = none ∧
    (Update UpdateFaults.none doneStore ServiceView.zero (some credentialsOnly)).2.1 =
      { doneStore with environments := doneStore.environments.map fun x =>
          if x = envDone then
            { envDone with
              Options := (MapInput ServiceView.zero (some credentialsOnly)).Options,
              Credentials := (MapInput ServiceView.zero (some credentialsOnly)).Credentials }
          else x } ∧
    (∀ p, some credentialsOnly = some p → p.options = none →
      (MapInput ServiceView.zero (some credentialsOnly)).Options = ServiceView.zero.Options) :=
  ⟨by decide,
   Update_overwrites_options_and_credentials UpdateFaults.none doneStore ServiceView.zero
    (some credentialsOnly) envDone (by decide) (by decide) (by decide) (by decide) (by decide)
    (by decide) rfl rfl⟩

/-- C8: on the empty store, an `Update` whose body names `env-x` and carries
options and credentials succeeds and inserts one environment whose name is
empty, not `env-x`; it carries the options and credentials of the body, and no
build is created. -/
theorem Update_absent_inserts_nameless :
    (Update UpdateFaults.none DB.empty ServiceView.zero (some optionsAndCredentials)).1 = none ∧
    (Update UpdateFaults.none DB.empty ServiceView.zero
      (some optionsAndCredentials)).2.1.environments =
      [{ ID := 1, Name := "", DatacenterID := 0, Typ := "", Status := "",
         Options := some [("region", "eu")], Credentials := some [("token", "t-1")] }] ∧
    (Update UpdateFaults.none DB.empty ServiceView.zero
      (some optionsAndCredentials)).2.1.builds = [] ∧
    envsNamed (Update UpdateFaults.none DB.empty ServiceView.zero
      (some optionsAndCredentials)).2.1 "env-x" = [] := by
  decide

/-- In a store with no environment named like the decoded view, an `Update`
whose save succeeds appends the zero-valued environment with the options and
credentials of the view: the new row has the empty name, whatever the lookup
answered. -/
theorem Update_absent_inserts_zero_row (f : UpdateFaults) (db : DB) (s : ServiceView)
    (body : Option Payload) (hname : (MapInput s body).Name ≠ "")
    (habsent : ∀ e ∈ db.environments, e.Name ≠ (MapInput s body).Name)
    (hsave : f.save = none) :
    Update f db s body =
      (none,
       { db with
         environments := db.environments ++
           [{ Environment.zero with
              ID := db.envSeq + 1, Options := (MapInput s body).Options,
              Credentials := (MapInput s body).Credentials }],
         envSeq := db.envSeq + 1 },
       MapInput s body) := by
  have hfind := firstByName_of_absent habsent
  cases hf : f.first <;>
    simp [Update, hname, hf, hfind, saveEnvironment, hsave, createEnvironment, Environment.zero]

/-! ## LoadFromInput -/

/-- The rows a query selects are the joined pairs that pass each of its clauses. -/
theorem mem_selectRows {db : DB} {q : List Where} {e : Environment} {b : Build} :
    (e, b) ∈ selectRows db q ↔
      e ∈ db.environments ∧ b ∈ db.builds ∧ b.EnvironmentID = e.ID ∧
        ∀ w ∈ q, w.holds e b = true := by
  unfold selectRows
  rw [List.mem_filter, mem_joinRows, List.all_eq_true]
  constructor
  · rintro ⟨⟨he, hb, hid⟩, hall⟩
    exact ⟨he, hb, hid, hall⟩
  · rintro ⟨he, hb, hid, hall⟩
    exact ⟨⟨he, hb, hid⟩, hall⟩

/-- A non-empty list of rows has a row whose environment key is least. -/
theorem exists_least_row (rows : List (Environment × Build)) (h : rows ≠ []) :
    ∃ r ∈ rows, ∀ r2 ∈ rows, r.1.ID ≤ r2.1.ID := by
  induction rows with
  | nil => exact absurd rfl h
  | cons x xs ih =>
    by_cases hxs : xs = []
    · subst hxs
      exact ⟨x, by simp, by simp⟩
    · obtain ⟨m, hm, hmin⟩ := ih hxs
      by_cases hle : x.1.ID ≤ m.1.ID
      · refine ⟨x, by simp, ?_⟩
        intro r2 hr2
        rcases List.mem_cons.1 hr2 with rfl | hr2
        · exact Nat.le_refl _
        · exact Nat.le_trans hle (hmin r2 hr2)
      · refine ⟨m, List.mem_cons_of_mem _ hm, ?_⟩
        intro r2 hr2
        rcases List.mem_cons.1 hr2 with rfl | hr2
        · omega
        · exact hmin r2 hr2

/-- A non-empty query result has a candidate for `First`. -/
theorem firstCandidates_ne_nil (rows : List (Environment × Build)) (h : rows ≠ []) :
    firstCandidates rows ≠ [] := by
  obtain ⟨r, hr, hmin⟩ := exists_least_row rows h
  have : r ∈ firstCandidates rows := by
    unfold firstCandidates
    rw [List.mem_filter, List.all_eq_true]
    exact ⟨hr, fun r2 hr2 => by simpa using hmin r2 hr2⟩
  exact List.ne_nil_of_mem this

/-- The row `First` returns is a row of the query. -/
theorem firstRow_mem {tie : Nat} {rows : List (Environment × Build)} {r : Environment × Build}
    (h : firstRow tie rows = some r) : r ∈ rows := by
  unfold firstRow at h
  have hmem : r ∈ firstCandidates rows := by
    rw [List.getElem?_eq_some_iff] at h
    obtain ⟨hlt, hget⟩ := h
    rw [← hget]
    exact List.getElem_mem _
  exact (List.mem_filter.1 hmem).1

/-- On a non-empty query result `First` returns a row, whatever the store picks. -/
theorem firstRow_isSome {rows : List (Environment × Build)} (tie : Nat) (h : rows ≠ []) :
    ∃ r, firstRow tie rows = some r := by
  unfold firstRow
  have hlen : 0 < (firstCandidates rows).length :=
    List.length_pos.2 (firstCandidates_ne_nil rows h)
  have hlt : tie % (firstCandidates rows).length < (firstCandidates rows).length :=
    Nat.mod_lt _ hlen
  exact ⟨(firstCandidates rows)[tie % (firstCandidates rows).length], by
    rw [List.getElem?_eq_getElem hlt]⟩

/-- On an empty query result `First` finds no record. -/
theorem firstRow_nil (tie : Nat) : firstRow tie [] = none := by
  simp [firstRow, firstCandidates]

/-- For a request with a uuid or a name, the rows of the lookup are the stored
pairs the request identifies. -/
theorem mem_selectRows_loadWhere {db : DB} {s : ServiceView} {e : Environment} {b : Build}
    (hident : s.UUID ≠ "" ∨ s.Name ≠ "") :
    (e, b) ∈ selectRows db (loadWhere s) ↔
      e ∈ db.environments ∧ b ∈ db.builds ∧ b.EnvironmentID = e.ID ∧ identifies s e b := by
  rw [mem_selectRows]
  unfold loadWhere identifies
  by_cases hu : s.UUID = ""
  · have hn : s.Name ≠ "" := by
      rcases hident with h | h
      · exact absurd hu h
      · exact h
    simp [hu, hn, Where.holds]
  · simp [hu, Where.holds]

/-- When `First` returns a row whose build key is set, the call returns true and
the view becomes that row. -/
theorem LoadFromInput_of_row {db : DB} {s : ServiceView} {msg : Option Payload} {tie : Nat}
    {r : Environment × Build}
    (h : firstRow tie (selectRows db (loadWhere (MapInput s msg))) = some r) (hid : r.2.ID ≠ 0) :
    LoadFromInput none tie db s msg = (true, loadSelect r) := by
  have : HasID (loadSelect r) = true := by simp [HasID, loadSelect, hid]
  simp [LoadFromInput, h, this]

/-- When the lookup selects no row, the call returns false and the view stays the
decoded request. -/
theorem LoadFromInput_of_no_row {db : DB} {s : ServiceView} {msg : Option Payload} {tie : Nat}
    (h : selectRows db (loadWhere (MapInput s msg)) = []) :
    LoadFromInput none tie db s msg = (false, MapInput s msg) := by
  simp [LoadFromInput, h, firstRow_nil]

/-- For a decoded request with a uuid or a name, in a store whose build keys are
set and whose query succeeds: `LoadFromInput` returns true exactly when a
stored pair is identified by the request (by uuid when it has one, by name
otherwise); on true the view is such a pair, with a non-zero id; on false the
view stays the decoded request. -/
theorem LoadFromInput_identified (db : DB) (s : ServiceView) (msg : Option Payload) (tie : Nat)
    (hkeys : ∀ b ∈ db.builds, b.ID ≠ 0)
    (hident : (MapInput s msg).UUID ≠ "" ∨ (MapInput s msg).Name ≠ "") :
    ((LoadFromInput none tie db s msg).1 = true ↔
      ∃ e ∈ db.environments, ∃ b ∈ db.builds,
        b.EnvironmentID = e.ID ∧ identifies (MapInput s msg) e b) ∧
    ((LoadFromInput none tie db s msg).1 = true →
      ∃ e ∈ db.environments, ∃ b ∈ db.builds,
        b.EnvironmentID = e.ID ∧ identifies (MapInput s msg) e b ∧
        (LoadFromInput none tie db s msg).2 = loadSelect (e, b) ∧
        (LoadFromInput none tie db s msg).2.ID ≠ 0) ∧
    ((LoadFromInput none tie db s msg).1 = false →
      (LoadFromInput none tie db s msg).2 = MapInput s msg) := by
  by_cases hrows : selectRows db (loadWhere (MapInput s msg)) = []
  · rw [LoadFromInput_of_no_row hrows]
    refine ⟨⟨fun h => by simp at h, ?_⟩, fun h => by simp at h, fun _ => rfl⟩
    rintro ⟨e, he, b, hb, hid, hm⟩
    have : (e, b) ∈ selectRows db (loadWhere (MapInput s msg)) :=
      (mem_selectRows_loadWhere hident).2 ⟨he, hb, hid, hm⟩
    rw [hrows] at this
    cases this
  · obtain ⟨⟨e, b⟩, hr⟩ := firstRow_isSome tie hrows
    obtain ⟨he, hb, hid, hm⟩ := (mem_selectRows_loadWhere hident).1 (firstRow_mem hr)
    rw [LoadFromInput_of_row hr (hkeys b hb)]
    refine ⟨⟨fun _ => ⟨e, he, b, hb, hid, hm⟩, fun _ => rfl⟩, fun _ => ?_, fun h => by simp at h⟩
    exact ⟨e, he, b, hb, hid, hm, rfl, hkeys b hb⟩


/-- C10: in the store where `env-x` has the build `b-1`, a request with neither
`uuid` nor `name` matches no stored pair by name, yet `LoadFromInput` returns
true and replaces the view by the stored pair of `env-x` and `b-1`, whichever
row the store picks. -/
theorem LoadFromInput_empty_request_loads_first_row :
    progressStore = (Save SaveFaults.none 10 DB.empty firstBuild).db ∧
    selectRows progressStore [Where.envNameEq ""] = [] ∧
    ∀ tie, LoadFromInput none tie progressStore ServiceView.zero (some Payload.none) =
      (true, loadSelect (envInProgress, buildInProgress)) := by
  refine ⟨by decide, by decide, ?_⟩
  intro tie
  have hrows : firstCandidates (selectRows progressStore
      (loadWhere (MapInput ServiceView.zero (some Payload.none)))) =
      [(envInProgress, buildInProgress)] := by decide
  have hload : HasID (loadSelect (envInProgress, buildInProgress)) = true := by decide
  simp [LoadFromInput, firstRow, hrows, Nat.mod_one, hload]

/-! ## Save -/

/-- The caller receives the value the body returned. -/
theorem Save_ret (f : SaveFaults) (now : Nat) (db : DB) (s : ServiceView) :
    (Save f now db s).ret = (saveBody f now db s).ret := by
  simp only [Save]
  cases (saveBody f now db s).ret with
  | none => cases f.commit <;> rfl
  | some e => rfl

/-- After a returned error the tables are those before the call. -/
theorem Save_db_of_error (f : SaveFaults) (now : Nat) (db : DB) (s : ServiceView)
    (h : (Save f now db s).ret ≠ none) :
    (Save f now db s).db = rollbackTo db (saveBody f now db s).tx := by
  rw [Save_ret] at h
  simp only [Save]
  cases hb : (saveBody f now db s).ret with
  | none => exact absurd hb h
  | some e => rfl

/-- After a failed commit the tables are those before the call. -/
theorem Save_db_of_commit_error (f : SaveFaults) (now : Nat) (db : DB) (s : ServiceView)
    (h : f.commit ≠ none) :
    (Save f now db s).db = rollbackTo db (saveBody f now db s).tx := by
  simp only [Save]
  cases (saveBody f now db s).ret with
  | none =>
    cases hc : f.commit with
    | none => exact absurd hc h
    | some e => rfl
  | some e => rfl

/-- After a successful commit the store is the one the body left. -/
theorem Save_db_of_commit (f : SaveFaults) (now : Nat) (db : DB) (s : ServiceView)
    (hret : (Save f now db s).ret = none) (hc : f.commit = none) :
    (Save f now db s).db = (saveBody f now db s).tx := by
  rw [Save_ret] at hret
  simp only [Save, hret, hc]

/-- The three outcomes of `FirstOrCreate`: an error, a row found, a row created. -/
theorem firstOrCreateByName_cases (err : Option String) (db : DB) (n : String)
    (env : Environment) :
    (∃ e, err = some e ∧ firstOrCreateByName err db n env = (some e, db, env)) ∨
    (err = none ∧ ∃ found, firstByName db.environments n = some found ∧
      firstOrCreateByName err db n env = (none, db, found)) ∨
    (err = none ∧ firstByName db.environments n = none ∧
      firstOrCreateByName err db n env = (none, createEnvironment db env)) := by
  cases err with
  | some e => exact Or.inl ⟨e, rfl, rfl⟩
  | none =>
    cases hf : firstByName db.environments n with
    | some found => exact Or.inr (Or.inl ⟨rfl, found, rfl, by simp [firstOrCreateByName, hf]⟩)
    | none => exact Or.inr (Or.inr ⟨rfl, rfl, by simp [firstOrCreateByName, hf]⟩)

/-- The status gate lets the body go on only from an open status and after a
successful `UPDATE`, which marks the environment in progress. -/
theorem statusGate_ok {updateErr : Option String} {tx tx2 : DB} {env : Environment}
    (h : statusGate updateErr tx env = (none, tx2)) :
    updateErr = none ∧ gateOpen env ∧
      tx2 = { tx with environments := markInProgress tx.environments env.ID } := by
  unfold statusGate at h
  by_cases hopen : env.Status = "initializing" ∨ env.Status = "done" ∨ env.Status = "errored"
  · rw [if_pos hopen] at h
    cases updateErr with
    | some e => simp [execSetStatus] at h
    | none =>
      simp only [execSetStatus, Prod.mk.injEq, true_and] at h
      exact ⟨rfl, hopen, h.symm⟩
  · rw [if_neg hopen] at h
    by_cases hp : env.Status = "in_progress"
    · simp [hp] at h
    · simp [hp] at h

/-- From an open status, a successful `UPDATE` marks the environment in progress. -/
theorem statusGate_open {tx : DB} {env : Environment} (h : gateOpen env) :
    statusGate none tx env =
      (none, { tx with environments := markInProgress tx.environments env.ID }) := by
  unfold gateOpen at h
  simp [statusGate, h, execSetStatus, markInProgress]

/-- Without credentials, the build steps that return no error leave the store
with the environment marked and the build appended. -/
theorem saveBuildSteps_ok {f : SaveFaults} {now : Nat} {tx : DB} {s : ServiceView}
    {env : Environment} (h : (saveBuildSteps f now tx s env).ret = none)
    (hc : s.Credentials = none) :
    gateOpen env ∧ (saveBuildSteps f now tx s env).tx = withBuild tx s env now := by
  unfold saveBuildSteps at h ⊢
  cases hgate : statusGate f.statusUpdate tx env with
  | mk gerr tx2 =>
    cases gerr with
    | some e => simp [hgate] at h
    | none =>
      obtain ⟨-, hopen, htx2⟩ := statusGate_ok hgate
      simp only [hgate] at h ⊢
      cases hbs : f.buildSave with
      | some e => simp [hbs, saveBuild] at h
      | none =>
        subst htx2
        simp [saveBuild, hc, withBuild, buildRow, hopen]

/-- Without credentials, the build steps draw nothing from the environment
sequence. -/
theorem saveBuildSteps_envSeq (f : SaveFaults) (now : Nat) (tx : DB) (s : ServiceView)
    (env : Environment) (hc : s.Credentials = none) :
    (saveBuildSteps f now tx s env).tx.envSeq = tx.envSeq := by
  unfold saveBuildSteps
  cases hgate : statusGate f.statusUpdate tx env with
  | mk gerr tx2 =>
    have htx2 : tx2.envSeq = tx.envSeq := by
      unfold statusGate at hgate
      split at hgate
      · cases hu : f.statusUpdate with
        | none => simp [hu, execSetStatus] at hgate; rw [← hgate.2]
        | some e => simp [hu, execSetStatus] at hgate; rw [← hgate.2]
      · split at hgate <;> simp at hgate <;> rw [← hgate.2]
    cases gerr with
    | some e => simpa using htx2
    | none =>
      cases hbs : f.buildSave with
      | some e => simpa [saveBuild] using htx2
      | none => simpa [saveBuild, hc] using htx2


/-- A `Save` without build fields under a name no row carries inserts the
environment with status `initializing` and commits. -/
theorem Save_shell_absent (f : SaveFaults) (now : Nat) (db : DB) (s : ServiceView)
    (habsent : ∀ e ∈ db.environments, e.Name ≠ s.Name)
    (hu : s.UUID = "") (ht : s.Typ = "")
    (hstore : f.firstOrCreate = none) (hcommit : f.commit = none) :
    Save f now db s =
      { ret := none, err := none, s := s,
        db := { db with
          environments := db.environments ++
            [{ ID := db.envSeq + 1, Name := s.Name, DatacenterID := s.DatacenterID,
               Typ := s.Typ, Status := "initializing", Options := s.Options,
               Credentials := s.Credentials }],
          envSeq := db.envSeq + 1 } } := by
  have hfind := firstByName_of_absent habsent
  have hbody : saveBody f now db s =
      { ret := none, s := s,
        tx := { db with
          environments := db.environments ++
            [{ ID := db.envSeq + 1, Name := s.Name, DatacenterID := s.DatacenterID,
               Typ := s.Typ, Status := "initializing", Options := s.Options,
               Credentials := s.Credentials }],
          envSeq := db.envSeq + 1 } } := by
    simp [saveBody, firstOrCreateByName, hstore, hfind, hu, ht, createEnvironment]
  simp [Save, hbody, hcommit]

/-- A `Save` without build fields under a name that is found changes nothing. -/
theorem Save_shell_present (f : SaveFaults) (now : Nat) (db : DB) (s : ServiceView)
    (e : Environment) (hfind : firstByName db.environments s.Name = some e)
    (hu : s.UUID = "") (ht : s.Typ = "")
    (hstore : f.firstOrCreate = none) (hcommit : f.commit = none) :
    Save f now db s = { ret := none, err := none, s := s, db := db } := by
  have hbody : saveBody f now db s = { ret := none, s := s, tx := db } := by
    simp [saveBody, firstOrCreateByName, hstore, hfind, hu, ht]
  simp [Save, hbody, hcommit]

/-- C2: in a store with distinct names that holds an environment named like the
request with status `in_progress`, a `Save` of a request with a non-empty uuid
or type, whose find-or-create is answered by the store, returns the conflict
error, and the store after the call is the store before it: no build row is
created. -/
theorem Save_in_progress_conflict (f : SaveFaults) (now : Nat) (db : DB) (s : ServiceView)
    (e : Environment) (hnames : (db.environments.map (·.Name)).Nodup)
    (he : e ∈ db.environments) (hname : e.Name = s.Name) (hst : e.Status = "in_progress")
    (hbuild : s.UUID ≠ "" ∨ s.Typ ≠ "") (hstore : f.firstOrCreate = none) :
    (Save f now db s).ret = some errInProgress ∧ (Save f now db s).db = db ∧
      (Save f now db s).db.builds = db.builds := by
  have hfind : firstByName db.environments s.Name = some e := by
    rw [← hname]; exact firstByName_of_mem hnames he
  have hgate : ¬ (s.UUID = "" ∧ s.Typ = "") := by
    rintro ⟨hu, ht⟩
    rcases hbuild with h | h
    · exact h hu
    · exact h ht
  have hbody : saveBody f now db s = { ret := some errInProgress, tx := db, s := s } := by
    simp [saveBody, saveBuildSteps, statusGate, firstOrCreateByName, hstore, hfind, hgate, hst]
  simp [Save, hbody, rollbackTo]

/-- Witness of C2: a second build requested while `b-1` is in progress. -/
theorem Save_in_progress_conflict_witness :
    envInProgress ∈ progressStore.environments ∧
    (Save SaveFaults.none 20 progressStore secondBuild).ret = some errInProgress ∧
    (Save SaveFaults.none 20 progressStore secondBuild).db = progressStore ∧
    (Save SaveFaults.none 20 progressStore secondBuild).db.builds = progressStore.builds :=
  ⟨by decide,
   Save_in_progress_conflict SaveFaults.none 20 progressStore secondBuild envInProgress
    (by decide) (by decide) (by decide) (by decide) (by decide) rfl⟩

/-- C4: in a store with no environment named `n`, two `Save` calls in succession
with requests named `n` and empty uuid and type, whose find-or-create and commit
succeed, both return no error; afterwards exactly one environment is named `n`,
the builds are those of the initial store, the environment named `n` has status
`initializing` after the first call and after the second, and the second call
leaves the store as the first left it. -/
theorem Save_shell_twice (f1 f2 : SaveFaults) (now1 now2 : Nat) (db : DB) (s1 s2 : ServiceView)
    (n : String) (habsent : ∀ e ∈ db.environments, e.Name ≠ n)
    (hn1 : s1.Name = n) (hu1 : s1.UUID = "") (ht1 : s1.Typ = "")
    (hn2 : s2.Name = n) (hu2 : s2.UUID = "") (ht2 : s2.Typ = "")
    (hstore1 : f1.firstOrCreate = none) (hcommit1 : f1.commit = none)
    (hstore2 : f2.firstOrCreate = none) (hcommit2 : f2.commit = none) :
    (Save f1 now1 db s1).ret = none ∧
    (Save f2 now2 (Save f1 now1 db s1).db s2).ret = none ∧
    (envsNamed (Save f2 now2 (Save f1 now1 db s1).db s2).db n).length = 1 ∧
    (Save f2 now2 (Save f1 now1 db s1).db s2).db.builds = db.builds ∧
    (∀ e ∈ envsNamed (Save f1 now1 db s1).db n, e.Status = "initializing") ∧
    (∀ e ∈ envsNamed (Save f2 now2 (Save f1 now1 db s1).db s2).db n, e.Status = "initializing") ∧
    (Save f2 now2 (Save f1 now1 db s1).db s2).db = (Save f1 now1 db s1).db := by
  subst hn1
  have h1 := Save_shell_absent f1 now1 db s1 habsent hu1 ht1 hstore1 hcommit1
  have hfind : firstByName (Save f1 now1 db s1).db.environments s2.Name = some
      { ID := db.envSeq + 1, Name := s1.Name, DatacenterID := s1.DatacenterID,
        Typ := s1.Typ, Status := "initializing", Options := s1.Options,
        Credentials := s1.Credentials } := by
    rw [h1, hn2]
    exact firstByName_append_new habsent
  have h2 := Save_shell_present f2 now2 _ s2 _ hfind hu2 ht2 hstore2 hcommit2
  have hold : db.environments.filter (fun y => y.Name = s1.Name) = [] := by
    rw [List.filter_eq_nil_iff]
    intro y hy hname
    exact habsent y hy (by simpa using hname)
  rw [h2, h1]
  simp [envsNamed, List.filter_append, hold, List.filter_cons]



/-- Witness of C4: the environment `env-x` requested twice on the empty store. -/
theorem Save_shell_twice_witness :
    (Save SaveFaults.none 1 DB.empty shellRequest).ret = none ∧
    (Save SaveFaults.none 2 (Save SaveFaults.none 1 DB.empty shellRequest).db
      shellRequest).ret = none ∧
    (envsNamed (Save SaveFaults.none 2 (Save SaveFaults.none 1 DB.empty shellRequest).db
      shellRequest).db "env-x").length = 1 ∧
    (Save SaveFaults.none 2 (Save SaveFaults.none 1 DB.empty shellRequest).db
      shellRequest).db.builds = DB.empty.builds ∧
    (∀ e ∈ envsNamed (Save SaveFaults.none 1 DB.empty shellRequest).db "env-x",
      e.Status = "initializing") ∧
    (∀ e ∈ envsNamed (Save SaveFaults.none 2 (Save SaveFaults.none 1 DB.empty shellRequest).db
      shellRequest).db "env-x", e.Status = "initializing") ∧
    (Save SaveFaults.none 2 (Save SaveFaults.none 1 DB.empty shellRequest).db shellRequest).db =
      (Save SaveFaults.none 1 DB.empty shellRequest).db :=
  Save_shell_twice SaveFaults.none SaveFaults.none 1 2 DB.empty shellRequest shellRequest "env-x"
    (by decide) rfl rfl rfl rfl rfl rfl rfl rfl rfl rfl

/-- C1: from the empty store, a `Save` of a first build that carries credentials
followed by a `Save` of a second build of the same environment, every store
call succeeding, both return no error; the first leaves the environment with
status `initializing` beside its build in progress, and after the second the
environment with primary key 1 is referenced by two builds whose status is
`in_progress`. -/
theorem Save_with_credentials_allows_two_in_progress :
    (Save SaveFaults.none 10 DB.empty firstBuildWithCredentials).ret = none ∧
    (Save SaveFaults.none 10 DB.empty firstBuildWithCredentials).db.environments.map
      (fun e => (e.ID, e.Name, e.Status)) = [(1, "env-x", "initializing")] ∧
    (Save SaveFaults.none 20 (Save SaveFaults.none 10 DB.empty firstBuildWithCredentials).db
      secondBuild).ret = none ∧
    (inProgressBuilds (runSaves DB.empty
      [(SaveFaults.none, 10, firstBuildWithCredentials), (SaveFaults.none, 20, secondBuild)])
      1).map (fun b => (b.UUID, b.EnvironmentID, b.Status)) =
      [("b-1", 1, "in_progress"), ("b-2", 1, "in_progress")] := by
  decide

/-- C3: in the store where `env-x` has status `done`, a `Save` of a request that
carries build fields and credentials, every store call succeeding, returns no
error and adds exactly one build, with status `in_progress`, but leaves the
status of `env-x` at `done`. -/
theorem Save_with_credentials_keeps_terminal_status :
    doneStore.environments.map (fun e => (e.Name, e.Status)) = [("env-x", "done")] ∧
    (Save SaveFaults.none 20 doneStore secondBuildWithCredentials).ret = none ∧
    (Save SaveFaults.none 20 doneStore secondBuildWithCredentials).db.environments.map
      (fun e => (e.Name, e.Status)) = [("env-x", "done")] ∧
    (Save SaveFaults.none 20 doneStore secondBuildWithCredentials).db.builds =
      doneStore.builds ++
        [{ ID := 2, UUID := "b-2", EnvironmentID := 1, UserID := 3, Typ := "terraform",
           Status := "in_progress", Definition := "", Mapping := none, CreatedAt := 20 }] := by
  decide

/-- C7: a `Save` whose store calls all succeed except the final `Commit`, which
fails with the error `e`, returns no error to the caller; the error ends in the
local variable only, and nothing of the request is stored. -/
theorem Save_commit_failure_returns_nil (e : String) :
    (Save { SaveFaults.none with commit := some e } 10 DB.empty firstBuild).ret = none ∧
    (Save { SaveFaults.none with commit := some e } 10 DB.empty firstBuild).err = some e ∧
    (Save { SaveFaults.none with commit := some e } 10 DB.empty firstBuild).db.environments = [] ∧
    (Save { SaveFaults.none with commit := some e } 10 DB.empty firstBuild).db.builds = [] := by
  exact ⟨rfl, rfl, rfl, rfl⟩

/-! ## Errors of the store calls of `Save` -/

/-- When `Save` returns no error, the find-or-create succeeded and, for a request
with build fields, so did the status update, the insert of the build and, when
the request carries credentials, the re-save of the environment. -/
theorem Save_nil_only_if_calls_succeed (f : SaveFaults) (now : Nat) (db : DB) (s : ServiceView)
    (h : (Save f now db s).ret = none) :
    f.firstOrCreate = none ∧
      (¬ (s.UUID = "" ∧ s.Typ = "") →
        f.statusUpdate = none ∧ f.buildSave = none ∧ (s.Credentials ≠ none → f.envSave = none)) := by
  rw [Save_ret] at h
  unfold saveBody at h
  cases hfoc : f.firstOrCreate with
  | some e => simp [hfoc, firstOrCreateByName] at h
  | none =>
    refine ⟨rfl, fun hbuild => ?_⟩
    rw [hfoc] at h
    have hshape : ∃ tx env, firstOrCreateByName none db s.Name
        { ID := 0, Name := s.Name, DatacenterID := s.DatacenterID, Typ := s.Typ,
          Options := s.Options, Credentials := s.Credentials, Status := "initializing" } =
        (none, tx, env) := by
      unfold firstOrCreateByName
      cases firstByName db.environments s.Name with
      | some found => exact ⟨_, _, rfl⟩
      | none => exact ⟨_, _, rfl⟩
    obtain ⟨tx, env, hshape⟩ := hshape
    simp only [hshape, hbuild, if_false] at h
    unfold saveBuildSteps at h
    cases hgate : statusGate f.statusUpdate tx env with
    | mk gerr tx2 =>
      cases gerr with
      | some e => simp [hgate] at h
      | none =>
        obtain ⟨hupd, -, -⟩ := statusGate_ok hgate
        simp only [hgate] at h
        cases hbs : f.buildSave with
        | some e => simp [hbs, saveBuild] at h
        | none =>
          refine ⟨hupd, rfl, fun hcred => ?_⟩
          cases hc : s.Credentials with
          | none => exact absurd hc hcred
          | some c =>
            cases hes : f.envSave with
            | none => rfl
            | some e => simp [hbs, saveBuild, hc, hes, saveEnvironment] at h

/-- An error `Save` returns is the error of one of the store calls of its body or
one of the two errors of the status gate. -/
theorem Save_error_origin (f : SaveFaults) (now : Nat) (db : DB) (s : ServiceView) (e : String)
    (h : (Save f now db s).ret = some e) :
    f.firstOrCreate = some e ∨ f.statusUpdate = some e ∨ f.buildSave = some e ∨
      f.envSave = some e ∨ e = errInProgress ∨ e = errUnknownState := by
  rw [Save_ret] at h
  have hbody : saveBody f now db s =
      match firstOrCreateByName f.firstOrCreate db s.Name (envLiteral s) with
      | (some err, tx, _) => { ret := some err, tx := tx, s := s }
      | (none, tx, env) =>
        if s.UUID = "" ∧ s.Typ = "" then { ret := none, tx := tx, s := s }
        else saveBuildSteps f now tx s env := rfl
  have hsteps : ∀ tx env, (saveBuildSteps f now tx s env).ret = some e →
      f.statusUpdate = some e ∨ f.buildSave = some e ∨
        f.envSave = some e ∨ e = errInProgress ∨ e = errUnknownState := by
    intro tx env hs
    unfold saveBuildSteps at hs
    cases hgate : statusGate f.statusUpdate tx env with
    | mk gerr tx2 =>
      cases gerr with
      | some g =>
        simp only [hgate, Option.some.injEq] at hs
        subst hs
        unfold statusGate at hgate
        split at hgate
        · cases hu : f.statusUpdate with
          | none => simp [hu, execSetStatus] at hgate
          | some u =>
            simp only [hu, execSetStatus, Prod.mk.injEq, Option.some.injEq] at hgate
            exact Or.inl (by rw [hgate.1])
        · split at hgate
          · simp only [Prod.mk.injEq, Option.some.injEq] at hgate
            exact Or.inr (Or.inr (Or.inr (Or.inl hgate.1.symm)))
          · simp only [Prod.mk.injEq, Option.some.injEq] at hgate
            exact Or.inr (Or.inr (Or.inr (Or.inr hgate.1.symm)))
      | none =>
        simp only [hgate] at hs
        cases hbs : f.buildSave with
        | some b =>
          simp only [hbs, saveBuild, Option.some.injEq] at hs
          exact Or.inr (Or.inl (by rw [hs]))
        | none =>
          simp only [hbs, saveBuild] at hs
          cases hc : s.Credentials with
          | none => simp [hc] at hs
          | some c =>
            simp only [hc] at hs
            cases hes : f.envSave with
            | none =>
              simp only [hes, saveEnvironment] at hs
              split at hs
              · simp at hs
              · split at hs <;> simp at hs
            | some v =>
              simp only [hes, saveEnvironment, Option.some.injEq] at hs
              exact Or.inr (Or.inr (Or.inl (by rw [hs])))
  rw [hbody] at h
  rcases firstOrCreateByName_cases f.firstOrCreate db s.Name (envLiteral s) with
    ⟨e2, he2, hfoc⟩ | ⟨-, found, -, hfoc⟩ | ⟨-, -, hfoc⟩
  · rw [hfoc] at h
    simp only [Option.some.injEq] at h
    exact Or.inl (by rw [he2, h])
  · rw [hfoc] at h
    by_cases hshell : s.UUID = "" ∧ s.Typ = ""
    · simp [hshell] at h
    · simp only [hshell, if_false] at h
      exact Or.inr (hsteps _ _ h)
  · rw [hfoc] at h
    by_cases hshell : s.UUID = "" ∧ s.Typ = ""
    · simp [hshell] at h
    · simp only [hshell, if_false] at h
      exact Or.inr (hsteps _ _ h)

/-! ## One build in progress, for requests without credentials -/

/-- The empty store is consistent. -/
theorem Consistent_empty : Consistent DB.empty :=
  { keys := by simp [DB.empty], names := by simp [DB.empty],
    seq := by simp [DB.empty], owner := by simp [DB.empty],
    single := by simp [DB.empty, inProgressBuilds] }

/-- A transaction that is not committed leaves a consistent store consistent. -/
theorem Consistent_rollbackTo {db tx : DB} (h : Consistent db) (hseq : db.envSeq ≤ tx.envSeq) :
    Consistent (rollbackTo db tx) :=
  { keys := h.keys, names := h.names,
    seq := fun e he => Nat.le_trans (h.seq e he) hseq,
    owner := h.owner,
    single := h.single }

/-- Inserting an environment under a fresh name keeps the store consistent. -/
theorem Consistent_createEnvironment {db : DB} {env : Environment} (h : Consistent db)
    (hid : env.ID = 0) (hname : ∀ e ∈ db.environments, e.Name ≠ env.Name) :
    Consistent (createEnvironment db env).1 ∧
      (createEnvironment db env).2 ∈ (createEnvironment db env).1.environments ∧
      (createEnvironment db env).2.Status = env.Status ∧
      db.envSeq ≤ (createEnvironment db env).1.envSeq ∧
      (createEnvironment db env).1.builds = db.builds := by
  have hc : createEnvironment db env =
      ({ db with environments := db.environments ++ [{ env with ID := db.envSeq + 1 }],
                 envSeq := db.envSeq + 1 }, { env with ID := db.envSeq + 1 }) := by
    simp [createEnvironment, hid]
  rw [hc]
  refine ⟨?_, by simp, rfl, Nat.le_succ _, rfl⟩
  refine { keys := ?_, names := ?_, seq := ?_, owner := ?_, single := ?_ }
  · simp only [List.map_append, List.map_cons, List.map_nil]
    rw [List.nodup_append]
    refine ⟨h.keys, by simp, ?_⟩
    intro a ha hb
    simp only [List.mem_singleton] at hb
    obtain ⟨e, he, rfl⟩ := List.mem_map.1 ha
    have := h.seq e he
    omega
  · simp only [List.map_append, List.map_cons, List.map_nil]
    rw [List.nodup_append]
    refine ⟨h.names, by simp, ?_⟩
    intro a ha hb
    simp only [List.mem_singleton] at hb
    obtain ⟨e, he, rfl⟩ := List.mem_map.1 ha
    exact hname e he hb
  · intro e he
    simp only [List.mem_append, List.mem_singleton] at he
    rcases he with he | rfl
    · exact Nat.le_succ_of_le (h.seq e he)
    · exact Nat.le_refl _
  · intro b hb hst
    obtain ⟨e, he, hid2, hs⟩ := h.owner b hb hst
    exact ⟨e, List.mem_append_left _ he, hid2, hs⟩
  · exact h.single

/-- Marking keeps the primary keys. -/
theorem markInProgress_keys (envs : List Environment) (id : Nat) :
    (markInProgress envs id).map (·.ID) = envs.map (·.ID) := by
  unfold markInProgress
  rw [List.map_map]
  apply List.map_congr_left
  intro e _
  by_cases h : e.ID = id <;> simp [h]

/-- Marking keeps the names. -/
theorem markInProgress_names (envs : List Environment) (id : Nat) :
    (markInProgress envs id).map (·.Name) = envs.map (·.Name) := by
  unfold markInProgress
  rw [List.map_map]
  apply List.map_congr_left
  intro e _
  by_cases h : e.ID = id <;> simp [h]

/-- A row after marking comes from a row with the same key, marked when the key
is the marked one and unchanged otherwise. -/
theorem mem_markInProgress {envs : List Environment} {id : Nat} {x : Environment}
    (h : x ∈ markInProgress envs id) :
    ∃ e ∈ envs, x.ID = e.ID ∧ (e.ID = id → x.Status = "in_progress") ∧
      (e.ID ≠ id → x = e) := by
  unfold markInProgress at h
  obtain ⟨e, he, rfl⟩ := List.mem_map.1 h
  refine ⟨e, he, ?_, ?_, ?_⟩
  · by_cases hid : e.ID = id <;> simp [hid]
  · intro hid; simp [hid]
  · intro hid; simp [hid]

/-- An environment in progress stays in progress under marking. -/
theorem markInProgress_keeps {envs : List Environment} (id : Nat) {e : Environment}
    (he : e ∈ envs) (hst : e.Status = "in_progress") :
    ∃ x ∈ markInProgress envs id, x.ID = e.ID ∧ x.Status = "in_progress" := by
  refine ⟨if e.ID = id then { e with Status := "in_progress" } else e, ?_, ?_, ?_⟩
  · exact List.mem_map.2 ⟨e, he, rfl⟩
  · by_cases hid : e.ID = id <;> simp [hid]
  · by_cases hid : e.ID = id <;> simp [hid, hst]

/-- The marked environment is in progress. -/
theorem markInProgress_marks {envs : List Environment} {e : Environment} (he : e ∈ envs) :
    ∃ x ∈ markInProgress envs e.ID, x.ID = e.ID ∧ x.Status = "in_progress" :=
  ⟨{ e with Status := "in_progress" }, List.mem_map.2 ⟨e, he, by simp⟩, rfl, rfl⟩

/-- In a consistent store an environment that is not in progress has no build in
progress. -/
theorem no_build_in_progress {db : DB} (h : Consistent db) {env : Environment}
    (he : env ∈ db.environments) (hst : env.Status ≠ "in_progress") :
    inProgressBuilds db env.ID = [] := by
  unfold inProgressBuilds
  rw [List.filter_eq_nil_iff]
  intro b hb hcond
  simp only [decide_eq_true_eq] at hcond
  obtain ⟨e, hmem, hid, hs⟩ := h.owner b hb hcond.2
  have : e = env := eq_of_key_eq h.keys hmem he (hid.trans hcond.1)
  exact hst (this ▸ hs)

/-- The builds in progress after the build steps: those before, and the new build
for its environment. -/
theorem inProgressBuilds_withBuild (tx : DB) (s : ServiceView) (env : Environment) (now id : Nat) :
    inProgressBuilds (withBuild tx s env now) id =
      inProgressBuilds tx id ++
        (if env.ID = id then [buildRow s env.ID (tx.buildSeq + 1) now] else []) := by
  unfold inProgressBuilds withBuild
  simp only [List.filter_append]
  congr 1
  by_cases h : env.ID = id <;> simp [List.filter_cons, buildRow, h]

/-- The build steps from an environment that is not in progress keep the store
consistent. -/
theorem Consistent_withBuild {tx : DB} (h : Consistent tx) (s : ServiceView) {env : Environment}
    (now : Nat) (he : env ∈ tx.environments) (hst : env.Status ≠ "in_progress") :
    Consistent (withBuild tx s env now) := by
  refine { keys := ?_, names := ?_, seq := ?_, owner := ?_, single := ?_ }
  · simp only [withBuild, markInProgress_keys]; exact h.keys
  · simp only [withBuild, markInProgress_names]; exact h.names
  · intro x hx
    obtain ⟨e, hmem, hid, -, -⟩ := mem_markInProgress hx
    rw [hid]
    exact h.seq e hmem
  · intro b hb hbst
    simp only [withBuild, List.mem_append, List.mem_singleton] at hb
    rcases hb with hb | rfl
    · obtain ⟨e, hmem, hid, hs⟩ := h.owner b hb hbst
      obtain ⟨x, hx, hxid, hxs⟩ := markInProgress_keeps env.ID hmem hs
      exact ⟨x, hx, hxid.trans hid, hxs⟩
    · obtain ⟨x, hx, hxid, hxs⟩ := markInProgress_marks he
      exact ⟨x, hx, hxid, hxs⟩
  · intro id
    rw [inProgressBuilds_withBuild]
    by_cases hid : env.ID = id
    · subst hid
      simp [no_build_in_progress h he hst]
    · simpa [hid] using h.single id

/-- A `Save` of a request without credentials keeps the store consistent,
whichever store calls fail. -/
theorem Save_consistent (f : SaveFaults) (now : Nat) (db : DB) (s : ServiceView)
    (h : Consistent db) (hc : s.Credentials = none) : Consistent (Save f now db s).db := by
  have hbody : saveBody f now db s =
      match firstOrCreateByName f.firstOrCreate db s.Name (envLiteral s) with
      | (some err, tx, _) => { ret := some err, tx := tx, s := s }
      | (none, tx, env) =>
        if s.UUID = "" ∧ s.Typ = "" then { ret := none, tx := tx, s := s }
        else saveBuildSteps f now tx s env := rfl
  rcases firstOrCreateByName_cases f.firstOrCreate db s.Name (envLiteral s) with
    ⟨e, -, hfoc⟩ | ⟨-, found, hfind, hfoc⟩ | ⟨-, hfind, hfoc⟩
  · -- the lookup fails: rollback
    have hb : saveBody f now db s = { ret := some e, tx := db, s := s } := by
      rw [hbody, hfoc]
    have hret : (Save f now db s).ret ≠ none := by rw [Save_ret, hb]; simp
    rw [Save_db_of_error f now db s hret, hb]
    exact Consistent_rollbackTo h (Nat.le_refl _)
  · -- the environment exists
    obtain ⟨hmem, -⟩ := firstByName_mem hfind
    by_cases hshell : s.UUID = "" ∧ s.Typ = ""
    · have hb : saveBody f now db s = { ret := none, tx := db, s := s } := by
        rw [hbody, hfoc]; simp [hshell]
      by_cases hcommit : f.commit = none
      · rw [Save_db_of_commit f now db s (by rw [Save_ret, hb]) hcommit, hb]
        exact h
      · rw [Save_db_of_commit_error f now db s hcommit, hb]
        exact Consistent_rollbackTo h (Nat.le_refl _)
    · have hb : saveBody f now db s = saveBuildSteps f now db s found := by
        rw [hbody, hfoc]; simp [hshell]
      by_cases hok : (Save f now db s).ret = none ∧ f.commit = none
      · rw [Save_db_of_commit f now db s hok.1 hok.2, hb]
        have hret : (saveBuildSteps f now db s found).ret = none := by
          rw [← hb, ← Save_ret]; exact hok.1
        obtain ⟨hopen, htx⟩ := saveBuildSteps_ok hret hc
        rw [htx]
        refine Consistent_withBuild h s now hmem ?_
        intro hst
        unfold gateOpen at hopen
        rw [hst] at hopen
        revert hopen
        decide
      · have hdb : (Save f now db s).db = rollbackTo db (saveBody f now db s).tx := by
          by_cases hret : (Save f now db s).ret = none
          · exact Save_db_of_commit_error f now db s (fun hcm => hok ⟨hret, hcm⟩)
          · exact Save_db_of_error f now db s hret
        rw [hdb, hb]
        exact Consistent_rollbackTo h (by rw [saveBuildSteps_envSeq f now db s found hc])
  · -- the environment is created
    have hlit : (envLiteral s).ID = 0 := rfl
    have hfresh : ∀ e ∈ db.environments, e.Name ≠ (envLiteral s).Name :=
      firstByName_eq_none hfind
    obtain ⟨hcons, hmem, hstatus, hseq, -⟩ := Consistent_createEnvironment h hlit hfresh
    by_cases hshell : s.UUID = "" ∧ s.Typ = ""
    · have hb : saveBody f now db s =
          { ret := none, tx := (createEnvironment db (envLiteral s)).1, s := s } := by
        rw [hbody, hfoc]; simp [hshell]
      by_cases hcommit : f.commit = none
      · rw [Save_db_of_commit f now db s (by rw [Save_ret, hb]) hcommit, hb]
        exact hcons
      · rw [Save_db_of_commit_error f now db s hcommit, hb]
        exact Consistent_rollbackTo h hseq
    · have hb : saveBody f now db s = saveBuildSteps f now (createEnvironment db (envLiteral s)).1 s
          (createEnvironment db (envLiteral s)).2 := by
        rw [hbody, hfoc]; simp [hshell]
      by_cases hok : (Save f now db s).ret = none ∧ f.commit = none
      · rw [Save_db_of_commit f now db s hok.1 hok.2, hb]
        have hret : (saveBuildSteps f now (createEnvironment db (envLiteral s)).1 s
            (createEnvironment db (envLiteral s)).2).ret = none := by
          rw [← hb, ← Save_ret]; exact hok.1
        obtain ⟨-, htx⟩ := saveBuildSteps_ok hret hc
        rw [htx]
        refine Consistent_withBuild hcons s now hmem ?_
        rw [hstatus]
        show "initializing" ≠ "in_progress"
        decide
      · have hdb : (Save f now db s).db = rollbackTo db (saveBody f now db s).tx := by
          by_cases hret : (Save f now db s).ret = none
          · exact Save_db_of_commit_error f now db s (fun hcm => hok ⟨hret, hcm⟩)
          · exact Save_db_of_error f now db s hret
        rw [hdb, hb]
        exact Consistent_rollbackTo h (by rw [saveBuildSteps_envSeq _ _ _ _ _ hc]; exact hseq)

/-- A run of `Save` calls without credentials keeps the store consistent. -/
theorem runSaves_consistent (reqs : List (SaveFaults × Nat × ServiceView)) (db : DB)
    (h : Consistent db) (hc : ∀ r ∈ reqs, r.2.2.Credentials = none) :
    Consistent (runSaves db reqs) := by
  induction reqs generalizing db with
  | nil => exact h
  | cons r rest ih =>
    obtain ⟨f, now, s⟩ := r
    unfold runSaves
    exact ih _ (Save_consistent f now db s h (hc (f, now, s) (List.mem_cons_self _ _)))
      (fun r hr => hc r (List.mem_cons_of_mem _ hr))

/-- From the empty store, after any run of `Save` calls whose requests carry no
credentials, whichever store calls fail, each environment is referenced by at
most one build in progress. -/
theorem Save_without_credentials_single_in_progress
    (reqs : List (SaveFaults × Nat × ServiceView))
    (hc : ∀ r ∈ reqs, r.2.2.Credentials = none) (id : Nat) :
    (inProgressBuilds (runSaves DB.empty reqs) id).length ≤ 1 :=
  (runSaves_consistent reqs DB.empty Consistent_empty hc).single id

/-! ## The status gate from an open status -/

/-- From an environment whose status is open, a `Save` with build fields and
without credentials whose store calls succeed marks that environment in
progress, changes no other environment and appends one build in progress. -/
theorem Save_open_gate_without_credentials (f : SaveFaults) (now : Nat) (db : DB)
    (s : ServiceView) (e : Environment)
    (hkeys : (db.environments.map (·.ID)).Nodup)
    (hnames : (db.environments.map (·.Name)).Nodup)
    (he : e ∈ db.environments) (hname : e.Name = s.Name) (hopen : gateOpen e)
    (hbuild : s.UUID ≠ "" ∨ s.Typ ≠ "") (hc : s.Credentials = none)
    (hfind : f.firstOrCreate = none) (hupdate : f.statusUpdate = none)
    (hinsert : f.buildSave = none) (hcommit : f.commit = none) :
    (Save f now db s).ret = none ∧
    (Save f now db s).db.environments =
      db.environments.map (fun x => if x = e then { e with Status := "in_progress" } else x) ∧
    (Save f now db s).db.builds = db.builds ++ [buildRow s e.ID (db.buildSeq + 1) now] := by
  have hlookup : firstByName db.environments s.Name = some e := by
    rw [← hname]; exact firstByName_of_mem hnames he
  have hshell : ¬ (s.UUID = "" ∧ s.Typ = "") := by
    rintro ⟨hu, ht⟩
    rcases hbuild with h | h
    · exact h hu
    · exact h ht
  have hb : saveBody f now db s =
      { ret := none, tx := withBuild db s e now,
        s := { s with Version := now, Status := "in_progress" } } := by
    simp [saveBody, firstOrCreateByName, hfind, hlookup, hshell, saveBuildSteps, hupdate,
      statusGate_open hopen, saveBuild, hinsert, hc, withBuild, buildRow]
  have hret : (Save f now db s).ret = none := by rw [Save_ret, hb]
  refine ⟨hret, ?_, ?_⟩
  · rw [Save_db_of_commit f now db s hret hcommit, hb]
    simp only [withBuild, markInProgress]
    apply List.map_congr_left
    intro x hx
    by_cases hxe : x = e
    · simp [hxe]
    · have : x.ID ≠ e.ID := fun h => hxe (eq_of_key_eq hkeys hx he h)
      simp [hxe, this]
  · rw [Save_db_of_commit f now db s hret hcommit, hb]
    rfl

/-- From an environment whose status is open, a `Save` with build fields and with
credentials whose store calls succeed appends one build in progress and leaves
the environment with its former status: only its credentials change. -/
theorem Save_open_gate_with_credentials (f : SaveFaults) (now : Nat) (db : DB)
    (s : ServiceView) (e : Environment) (c : Map)
    (hkeys : (db.environments.map (·.ID)).Nodup)
    (hnames : (db.environments.map (·.Name)).Nodup)
    (he : e ∈ db.environments) (hid : e.ID ≠ 0) (hname : e.Name = s.Name) (hopen : gateOpen e)
    (hbuild : s.UUID ≠ "" ∨ s.Typ ≠ "") (hc : s.Credentials = some c)
    (hfind : f.firstOrCreate = none) (hupdate : f.statusUpdate = none)
    (hinsert : f.buildSave = none) (hsave : f.envSave = none) (hcommit : f.commit = none) :
    (Save f now db s).ret = none ∧
    (Save f now db s).db.environments =
      db.environments.map (fun x => if x = e then { e with Credentials := some c } else x) ∧
    (Save f now db s).db.builds = db.builds ++ [buildRow s e.ID (db.buildSeq + 1) now] := by
  have hlookup : firstByName db.environments s.Name = some e := by
    rw [← hname]; exact firstByName_of_mem hnames he
  have hshell : ¬ (s.UUID = "" ∧ s.Typ = "") := by
    rintro ⟨hu, ht⟩
    rcases hbuild with h | h
    · exact h hu
    · exact h ht
  have hany : ((markInProgress db.environments e.ID).any fun x => decide (x.ID = e.ID)) = true := by
    obtain ⟨x, hx, hxid, -⟩ := markInProgress_marks he
    exact List.any_eq_true.2 ⟨x, hx, by simpa using hxid⟩
  have hb : saveBody f now db s =
      { ret := none,
        tx := { environments :=
                  (markInProgress db.environments e.ID).map fun x =>
                    if x.ID = e.ID then { e with Credentials := some c } else x,
                builds := db.builds ++ [buildRow s e.ID (db.buildSeq + 1) now],
                envSeq := db.envSeq, buildSeq := db.buildSeq + 1 },
        s := { s with Version := now, Status := "in_progress" } } := by
    simp [saveBody, firstOrCreateByName, hfind, hlookup, hshell, saveBuildSteps, hupdate,
      statusGate_open hopen, saveBuild, hinsert, hc, buildRow, saveEnvironment, hsave, hid, hany]
  have hret : (Save f now db s).ret = none := by rw [Save_ret, hb]
  refine ⟨hret, ?_, ?_⟩
  · rw [Save_db_of_commit f now db s hret hcommit, hb]
    simp only [markInProgress, List.map_map]
    apply List.map_congr_left
    intro x hx
    by_cases hxe : x = e
    · simp [hxe]
    · have : x.ID ≠ e.ID := fun h => hxe (eq_of_key_eq hkeys hx he h)
      simp [hxe, this]
  · rw [Save_db_of_commit f now db s hret hcommit, hb]

end ServiceStore
